import Mathlib

set_option linter.all false

/-!
Shallow embedding of the Loop chore tracker's core state logic
(src/types.ts, src/utils.ts, src/storage.ts, and the reducer in src/App.tsx).

Calendar dates (the 'YYYY-MM-DD' strings of the source) are modelled as
integers counting days from an arbitrary epoch: date-fns addDays(d, k)
becomes d + k, the round trip toISO(new Date(iso)) is the identity on valid
dates, and string equality of ISO dates is integer equality.  Generated ids
(nanoid) and wall-clock timestamps are threaded in as explicit action
fields, making the nondeterminism of the source explicit.  JS numbers used
as points are modelled as integers, the dollars-per-point rate as a
rational.
-/

namespace Loop

/-- Whitespace as String.prototype.trim sees it (the characters relevant
here). -/
def isSpaceChar (c : Char) : Bool := c == ' ' || c == '\t' || c == '\n' || c == '\r'

/-- String.prototype.trim, written over the character list so that it
evaluates inside the kernel. -/
def trimStr (s : String) : String :=
  ⟨(((s.data.dropWhile isSpaceChar).reverse.dropWhile isSpaceChar).reverse)⟩

/-- A JS object used as a string-keyed number map (Chore.streakByKid).
Reading with default 0 mirrors the source's (sbk[kidId] || 0). -/
abbrev Smap := List (String × Int)

def getk (m : Smap) (k : String) : Int :=
  match m.find? (fun p => p.1 == k) with
  | some p => p.2
  | none => 0

/-- JS property assignment sbk[kidId] = v on an object with unique keys:
overwrite the existing key in place, else append the new key at the end. -/
def setk (m : Smap) (k : String) (v : Int) : Smap :=
  if m.any (fun p => p.1 == k) then m.map (fun p => if p.1 == k then (k, v) else p)
  else m ++ [(k, v)]

/-- src/types.ts Schedule -/
inductive Schedule where
  | daily : Schedule
  | weekly (daysOfWeek : List Int) : Schedule
  | custom (dates : List Int) : Schedule
deriving DecidableEq

/-- src/types.ts Kid -/
structure Kid where
  id : String
  name : String
  color : Option String := none
  avatarUrl : Option String := none
  avatarEmoji : Option String := none
  points : Int
deriving DecidableEq

/-- src/types.ts Chore.  The optional streakByKid is read in the source
only through (ch.streakByKid || {}), which collapses the missing map to the
empty one, so it is modelled as a plain map defaulting to []. -/
structure Chore where
  id : String
  title : String
  points : Int
  schedule : Schedule
  assignedKidIds : List String
  streakByKid : Smap := []
  order : Option Int := none
deriving DecidableEq

/-- src/types.ts Reward -/
structure Reward where
  id : String
  title : String
  cost : Int
deriving DecidableEq

/-- src/types.ts Completion -/
structure Completion where
  id : String
  choreId : String
  kidId : String
  date : Int
  completed : Bool
deriving DecidableEq

/-- src/types.ts Payout -/
structure Payout where
  id : String
  kidId : String
  period : String
  startISO : Int
  endISO : Int
  points : Int
  dollars : Rat
  timestampISO : String
deriving DecidableEq

/-- src/types.ts Adjustment -/
structure Adjustment where
  id : String
  kidId : String
  delta : Int
  reason : String
  timestampISO : String
deriving DecidableEq

/-- src/types.ts StreakBonus -/
structure StreakBonus where
  id : String
  kidId : String
  dateISO : Int
  streakLength : Nat
  points : Int
deriving DecidableEq

/-- src/types.ts Settings -/
structure Settings where
  dollarsPerPoint : Rat
  hideCompletedOnBoard : Bool
deriving DecidableEq

/-- src/types.ts State -/
structure State where
  kids : List Kid
  chores : List Chore
  rewards : List Reward
  completions : List Completion
  payouts : List Payout
  adjustments : List Adjustment
  streakBonuses : List StreakBonus
  settings : Settings
  version : Int
deriving DecidableEq

/-- Day of week of an integer date, (new Date(dateISO)).getDay(); the claims
do not depend on the epoch alignment. -/
def dow (d : Int) : Int := d.emod 7

/-- src/utils.ts isChoreDueOn -/
def isChoreDueOn (ch : Chore) (dateISO : Int) : Bool :=
  match ch.schedule with
  | .daily => true
  | .weekly daysOfWeek => daysOfWeek.contains (dow dateISO)
  | .custom dates => dates.contains dateISO

/-- src/App.tsx choresDueForKidOnDate -/
def choresDueForKidOnDate (s : State) (kidId : String) (dateISO : Int) : List Chore :=
  s.chores.filter (fun ch => ch.assignedKidIds.contains kidId && isChoreDueOn ch dateISO)

/-- src/App.tsx isFullDayDone -/
def isFullDayDone (s : State) (kidId : String) (dateISO : Int) : Bool :=
  let due := choresDueForKidOnDate s kidId dateISO
  if due.length == 0 then false
  else due.all (fun ch => s.completions.any (fun c =>
    c.kidId == kidId && c.choreId == ch.id && c.date == dateISO && c.completed))

/-- Fuelled form of the while-loop in consecutiveFullDaysEndingOn
(src/App.tsx): walk backwards one day at a time while the day is full. -/
def consecFuel (s : State) (kidId : String) : Nat → Int → Nat
  | 0, _ => 0
  | fuel + 1, d => if isFullDayDone s kidId d then consecFuel s kidId fuel (d - 1) + 1 else 0

/-- src/App.tsx consecutiveFullDaysEndingOn.  The loop terminates because
every full day contributes at least one completion record with that exact
date, so the run length is bounded by the number of completions; fuel
completions.length + 1 is therefore sufficient (proved below). -/
def consecutiveFullDaysEndingOn (s : State) (kidId : String) (dateISO : Int) : Nat :=
  consecFuel s kidId (s.completions.length + 1) dateISO

/-- The one failure the reducer can hit: TOGGLE_COMPLETE dereferences the
result of state.chores.find(...)! — a missing chore faults at the first
read of chore.points (a runtime TypeError behind the non-null assertion). -/
inductive ReducerError where
  | choreNotFound (choreId : String)
deriving DecidableEq

/-- Payload of ADD_CHORE: Omit of Chore without id, streakByKid, order. -/
structure NewChore where
  title : String
  points : Int
  schedule : Schedule
  assignedKidIds : List String
deriving DecidableEq

/-- Payload of REPLACE_ALL: a backup blob.  JSON imported from older backups
may be missing the adjustments / streakBonuses / version fields, which the
spread { version: 3, adjustments: [], streakBonuses: [], ...action.state }
back-fills; those three are therefore optional here. -/
structure ImportedState where
  kids : List Kid
  chores : List Chore
  rewards : List Reward
  completions : List Completion
  payouts : List Payout
  settings : Settings
  adjustments : Option (List Adjustment) := none
  streakBonuses : Option (List StreakBonus) := none
  version : Option Int := none
deriving DecidableEq

/-- src/App.tsx Action.  Fields named freshId / freshCompletionId /
freshBonusId / nowISO carry the nanoid() and new Date() values the source
generates internally. -/
inductive Action where
  | addKid (freshId : String) (name : String) (color : Option String) (avatarEmoji : Option String)
  | adjustPointsWithReason (freshId : String) (nowISO : String) (kidId : String) (delta : Int) (reason : String)
  | updateSettings (dollarsPerPoint : Option Rat) (hideCompletedOnBoard : Option Bool)
  | addChore (freshId : String) (chore : NewChore)
  | deleteChore (id : String)
  | reorderChores (orderedIds : List String)
  | toggleComplete (freshCompletionId : String) (freshBonusId : String)
      (kidId : String) (choreId : String) (dateISO : Int)
  | addReward (freshId : String) (title : String) (cost : Int)
  | redeemReward (kidId : String) (rewardId : String)
  | deleteReward (id : String)
  | payout (freshId : String) (nowISO : String) (kidId : String) (period : String)
      (startISO : Int) (endISO : Int) (points : Int)
  | resetAll
  | replaceAll (imported : ImportedState)

/-- The findIndex predicate of TOGGLE_COMPLETE:
c.kidId === kidId && c.choreId === choreId && c.date === dateISO. -/
def matchesTriple (kidId choreId : String) (dateISO : Int) (c : Completion) : Bool :=
  c.kidId == kidId && c.choreId == choreId && c.date == dateISO

/-- Fused embedding of the findIndex / splice / element-overwrite block at
the top of TOGGLE_COMPLETE (src/App.tsx lines 101-112).  Walks the array
left to right exactly as findIndex does and returns
(new completions, completed, wasChecked); when no record matches the
(kidId, choreId, dateISO) triple, a fresh completed record is pushed at the
end. -/
def toggleCompletions (kidId choreId : String) (dateISO : Int) (freshId : String) :
    List Completion → List Completion × Bool × Bool
  | [] => ([{ id := freshId, choreId := choreId, kidId := kidId, date := dateISO, completed := true }],
           true, false)
  | c :: rest =>
    if matchesTriple kidId choreId dateISO c then
      if c.completed then (rest, false, true)
      else ({ c with completed := true } :: rest, true, false)
    else
      let r := toggleCompletions kidId choreId dateISO freshId rest
      (c :: r.1, r.2)

/-- The body of the kids.map in TOGGLE_COMPLETE (src/App.tsx lines
116-122).  The looked-up chore's .points field is only read inside the two
point-changing branches, so a missing chore faults exactly when a kid with
the toggled kidId is reached. -/
def updateKidPoints (chore? : Option Chore) (choreId kidId : String)
    (wasChecked completed : Bool) (k : Kid) : Except ReducerError Kid :=
  if k.id == kidId then
    if !wasChecked && completed then
      match chore? with
      | none => .error (.choreNotFound choreId)
      | some chore => .ok { k with points := k.points + chore.points }
    else if wasChecked && !completed then
      match chore? with
      | none => .error (.choreNotFound choreId)
      | some chore => .ok { k with points := max 0 (k.points - chore.points) }
    else .ok k
  else .ok k

/-- Left-to-right effectful map, mirroring Array.prototype.map over a
callback that can throw: the first faulting element aborts the whole
transition. -/
def mapExcept (f : α → Except ReducerError β) : List α → Except ReducerError (List β)
  | [] => .ok []
  | x :: xs =>
    match f x with
    | .error e => .error e
    | .ok y =>
      match mapExcept f xs with
      | .error e => .error e
      | .ok ys => .ok (y :: ys)

/-- The streak-map rewrite of TOGGLE_COMPLETE (src/App.tsx lines 125-133):
every chore with the toggled id gets its per-kid counter set to
yesterday's-count + 1 on completion, reset to 0 on un-completion. -/
def updateChoreStreak (s : State) (kidId choreId : String) (dateISO : Int) (completed : Bool)
    (ch : Chore) : Chore :=
  if ch.id == choreId then
    let yISO := dateISO - 1
    let didYesterday := s.completions.any (fun c =>
      c.kidId == kidId && c.choreId == choreId && c.date == yISO && c.completed)
    let v : Int := if completed then (if didYesterday then getk ch.streakByKid kidId + 1 else 1) else 0
    { ch with streakByKid := setk ch.streakByKid kidId v }
  else ch

/-- src/App.tsx reducer, case TOGGLE_COMPLETE (lines 99-161). -/
def reducerToggle (s : State) (freshCompletionId freshBonusId kidId choreId : String)
    (dateISO : Int) : Except ReducerError State :=
  let tc := toggleCompletions kidId choreId dateISO freshCompletionId s.completions
  let completions := tc.1
  let completed := tc.2.1
  let wasChecked := tc.2.2
  let chore? := s.chores.find? (fun c => c.id == choreId)
  match mapExcept (updateKidPoints chore? choreId kidId wasChecked completed) s.kids with
  | .error e => .error e
  | .ok kids =>
    let chores := s.chores.map (updateChoreStreak s kidId choreId dateISO completed)
    let fullToday := isFullDayDone { s with completions := completions } kidId dateISO
    let existingBonusForToday := s.streakBonuses.find? (fun b => b.kidId == kidId && b.dateISO == dateISO)
    let kb :=
      if fullToday then
        let run := consecutiveFullDaysEndingOn { s with completions := completions } kidId dateISO
        if decide (0 < run) && run % 10 == 0 && existingBonusForToday.isNone then
          let bonus : StreakBonus :=
            { id := freshBonusId, kidId := kidId, dateISO := dateISO, streakLength := run, points := 5 }
          (kids.map (fun k => if k.id == kidId then { k with points := k.points + bonus.points } else k),
           bonus :: s.streakBonuses)
        else (kids, s.streakBonuses)
      else
        match existingBonusForToday with
        | some b =>
          (kids.map (fun k => if k.id == kidId then { k with points := max 0 (k.points - b.points) } else k),
           s.streakBonuses.filter (fun x => x.id != b.id))
        | none => (kids, s.streakBonuses)
    .ok { s with kids := kb.1, completions := completions, chores := chores, streakBonuses := kb.2 }

/-- The default rate 0.1, given as a literal reduced fraction so that
equality on states stays kernel-computable. -/
def pointRate : Rat := ⟨1, 10, by decide, by decide⟩

theorem pointRate_eq : pointRate = 1 / 10 := by
  rw [pointRate, Rat.mk'_eq_divInt, Rat.divInt_eq_div]; norm_num

def defaultSettings : Settings := { dollarsPerPoint := pointRate, hideCompletedOnBoard := true }

/-- The state produced by RESET_ALL (src/App.tsx lines 176-182): the
documented empty default of spec section 6, schema version 3. -/
def defaultState : State :=
  { kids := [], chores := [], rewards := [], completions := [], payouts := [],
    adjustments := [], streakBonuses := [], settings := defaultSettings, version := 3 }

/-- The Map built by REORDER_CHORES' forEach((id, i) => set(id, i+1)),
queried at one key: a later occurrence of the same id overwrites an earlier
one, and the stored value is the 0-based position + 1.  The running index
starts at i. -/
def orderMapGo (id : String) (i : Int) : List String → Option Int
  | [] => none
  | x :: xs =>
    match orderMapGo id (i + 1) xs with
    | some v => some v
    | none => if x == id then some (i + 1) else none

def orderMapGet (orderedIds : List String) (id : String) : Option Int :=
  orderMapGo id 0 orderedIds

/-- The comparator key (c.order ?? 0) of the sort in REORDER_CHORES. -/
def choreSortKey (c : Chore) : Int := c.order.getD 0

/-- Stable insertion: a later element passes an earlier one only when its
key is strictly smaller, matching the stability of Array.prototype.sort
with comparator (a.order ?? 0) - (b.order ?? 0). -/
def insertOrd (x : Chore) : List Chore → List Chore
  | [] => [x]
  | y :: ys => if choreSortKey x < choreSortKey y then x :: y :: ys else y :: insertOrd x ys

/-- Stable sort by the order key (insertion sort, elements taken left to
right). -/
def sortByOrder (l : List Chore) : List Chore := l.foldl (fun acc x => insertOrd x acc) []

/-- Number.prototype.toFixed(2) followed by unary +, abstracted to exact
rationals (round to cents). -/
def roundCents (x : Rat) : Rat := ((x * 100 + 1/2).floor : Int) / 100

def pastelPool : List String :=
  ["#c9e4ff", "#ffe0f2", "#e6ffea", "#fff3c9", "#e7e0ff", "#ffdacc"]

/-- src/App.tsx reducer (all cases). -/
def reducer (s : State) (a : Action) : Except ReducerError State :=
  match a with
  | .addKid freshId name color avatarEmoji =>
    let pick := color.getD (pastelPool.getD (s.kids.length % pastelPool.length) "")
    let kid : Kid :=
      { id := freshId, name := trimStr name, points := 0, color := some pick,
        avatarEmoji := avatarEmoji.bind (fun e => if e == "" then none else some e) }
    .ok { s with kids := s.kids ++ [kid] }
  | .adjustPointsWithReason freshId nowISO kidId delta reason =>
    let kids := s.kids.map (fun k =>
      if k.id == kidId then { k with points := max 0 (k.points + delta) } else k)
    let defaulted :=
      if trimStr reason == "" then (if delta > 0 then "+" else "-") ++ "adjust" else trimStr reason
    let adj : Adjustment :=
      { id := freshId, kidId := kidId, delta := delta, reason := defaulted, timestampISO := nowISO }
    .ok { s with kids := kids, adjustments := adj :: s.adjustments }
  | .updateSettings dpp hcb =>
    .ok { s with settings :=
      { dollarsPerPoint := dpp.getD s.settings.dollarsPerPoint,
        hideCompletedOnBoard := hcb.getD s.settings.hideCompletedOnBoard } }
  | .addChore freshId nc =>
    let maxOrder := s.chores.foldl (fun m c => max m (c.order.getD 0)) 0
    let chore : Chore :=
      { id := freshId, title := nc.title, points := nc.points, schedule := nc.schedule,
        assignedKidIds := nc.assignedKidIds, streakByKid := [], order := some (maxOrder + 1) }
    .ok { s with chores := s.chores ++ [chore] }
  | .deleteChore id =>
    .ok { s with chores := s.chores.filter (fun c => c.id != id),
                 completions := s.completions.filter (fun c => c.choreId != id) }
  | .reorderChores orderedIds =>
    let chores := sortByOrder (s.chores.map (fun c =>
      { c with order := some ((orderMapGet orderedIds c.id).getD (c.order.getD 9999)) }))
    .ok { s with chores := chores }
  | .toggleComplete fc fb kidId choreId dateISO => reducerToggle s fc fb kidId choreId dateISO
  | .addReward freshId title cost =>
    .ok { s with rewards := s.rewards ++ [{ id := freshId, title := title, cost := cost }] }
  | .redeemReward _ _ => .ok s
  | .deleteReward id => .ok { s with rewards := s.rewards.filter (fun r => r.id != id) }
  | .payout freshId nowISO kidId period startISO endISO points =>
    let dollars := roundCents ((points : Rat) * s.settings.dollarsPerPoint)
    let p : Payout :=
      { id := freshId, kidId := kidId, period := period, startISO := startISO, endISO := endISO,
        points := points, dollars := dollars, timestampISO := nowISO }
    .ok { s with payouts := p :: s.payouts }
  | .resetAll => .ok defaultState
  | .replaceAll p =>
    .ok { kids := p.kids, chores := p.chores, rewards := p.rewards,
          completions := p.completions, payouts := p.payouts,
          adjustments := p.adjustments.getD [], streakBonuses := p.streakBonuses.getD [],
          settings := p.settings, version := p.version.getD 3 }

/-- One dispatch as the app experiences it: React keeps the previous state
when the reducer throws, so a faulting toggle leaves the state as it was. -/
def stepD (s : State) (a : Action) : State :=
  match reducer s a with
  | .ok s2 => s2
  | .error _ => s

def applyActions (s : State) (acts : List Action) : State := acts.foldl stepD s

/-- What JSON.parse of a stored blob may have yielded: every field of the
persisted State can be missing (older or foreign data). -/
structure PartialState where
  kids : Option (List Kid) := none
  chores : Option (List Chore) := none
  rewards : Option (List Reward) := none
  completions : Option (List Completion) := none
  payouts : Option (List Payout) := none
  settings : Option Settings := none
  adjustments : Option (List Adjustment) := none
  streakBonuses : Option (List StreakBonus) := none
  version : Option Int := none
deriving DecidableEq

/-- The three inputs loadState can face: no stored value, a stored value
JSON.parse rejects, or a parsed object. -/
inductive LoadInput where
  | absent
  | unparseable
  | parsed (p : PartialState)

/-- The object loadState actually returns: the literals in src/storage.ts
carry no adjustments / streakBonuses keys at all (those two stay optional),
and version 2. -/
structure RawLoaded where
  kids : List Kid
  chores : List Chore
  rewards : List Reward
  completions : List Completion
  payouts : List Payout
  settings : Settings
  version : Int
  adjustments : Option (List Adjustment)
  streakBonuses : Option (List StreakBonus)
deriving DecidableEq

def loadDefaults : RawLoaded :=
  { kids := [], chores := [], rewards := [], completions := [], payouts := [],
    settings := defaultSettings, version := 2, adjustments := none, streakBonuses := none }

/-- src/storage.ts loadState.  The parsed case is the spread
{ version: 2, ...defaults, ...parsed }: a key present in the parsed object
wins, a missing key falls back to the defaults (which never supply
adjustments or streakBonuses). -/
def loadState : LoadInput → RawLoaded
  | .absent => loadDefaults
  | .unparseable => loadDefaults
  | .parsed p =>
    { kids := p.kids.getD [], chores := p.chores.getD [], rewards := p.rewards.getD [],
      completions := p.completions.getD [], payouts := p.payouts.getD [],
      settings := p.settings.getD defaultSettings, version := p.version.getD 2,
      adjustments := p.adjustments, streakBonuses := p.streakBonuses }

/-- The (kidId, choreId, date) key of a completion record. -/
def completionTriple (c : Completion) : String × String × Int := (c.kidId, c.choreId, c.date)

/-- The (kidId, dateISO) key of a streak bonus. -/
def bonusKey (b : StreakBonus) : String × Int := (b.kidId, b.dateISO)

/-- At most one Completion per (kidId, choreId, date). -/
def CompletionsUnique (l : List Completion) : Prop :=
  l.Pairwise (fun a b => completionTriple a ≠ completionTriple b)

/-- At most one StreakBonus per (kidId, dateISO). -/
def BonusesUnique (l : List StreakBonus) : Prop :=
  l.Pairwise (fun a b => bonusKey a ≠ bonusKey b)

/-- The two uniqueness invariants of the spec together. -/
def StateUnique (s : State) : Prop :=
  CompletionsUnique s.completions ∧ BonusesUnique s.streakBonuses

instance (l : List Completion) : Decidable (CompletionsUnique l) :=
  inferInstanceAs (Decidable (l.Pairwise _))

instance (l : List StreakBonus) : Decidable (BonusesUnique l) :=
  inferInstanceAs (Decidable (l.Pairwise _))

instance (s : State) : Decidable (StateUnique s) :=
  inferInstanceAs (Decidable (_ ∧ _))

/-- Is an action the wholesale REPLACE_ALL import? -/
def Action.isReplaceAll : Action → Bool
  | .replaceAll _ => true
  | _ => false

/-- Spec section 8 scenario: kid K with one daily chore worth 3 points,
assigned only to K. -/
def scenarioKid : Kid := { id := "K", name := "K", points := 0 }

def scenarioChore : Chore :=
  { id := "C", title := "Dishes", points := 3, schedule := .daily, assignedKidIds := ["K"] }

def scenarioState : State := { defaultState with kids := [scenarioKid], chores := [scenarioChore] }

/-- Toggling the scenario chore complete on days 1..10, in order. -/
def tenDayToggles : List Action :=
  (List.range 10).map (fun i =>
    Action.toggleComplete (toString (i + 1)) ("b" ++ toString (i + 1)) "K" "C" ((i : Int) + 1))

def scenarioDay10 : State := applyActions scenarioState tenDayToggles

def scenarioAfterUndo : State := stepD scenarioDay10 (.toggleComplete "c11" "b11" "K" "C" 10)

/-- State for the double-toggle counterexample: K already completed the
chore on day 1, so the chore's streak counter for K is 1. -/
def rtState : State :=
  { defaultState with
    kids := [{ id := "K", name := "K", points := 3 }],
    chores := [{ scenarioChore with streakByKid := [("K", 1)] }],
    completions := [{ id := "c1", choreId := "C", kidId := "K", date := 1, completed := true }] }

/-- Three chores A, B, C in stored order 1, 2, 3. -/
def reorderState : State :=
  { defaultState with chores :=
    [{ id := "A", title := "A", points := 1, schedule := .daily, assignedKidIds := [], order := some 1 },
     { id := "B", title := "B", points := 1, schedule := .daily, assignedKidIds := [], order := some 2 },
     { id := "C", title := "C", points := 1, schedule := .daily, assignedKidIds := [], order := some 3 }] }

/-- Two chores A, B in stored order 1, 2 (for the partial-reorder case). -/
def reorderTwoState : State :=
  { defaultState with chores :=
    [{ id := "A", title := "A", points := 1, schedule := .daily, assignedKidIds := [], order := some 1 },
     { id := "B", title := "B", points := 1, schedule := .daily, assignedKidIds := [], order := some 2 }] }

/-- A backup blob carrying a kid with a negative balance. -/
def negativeImport : ImportedState :=
  { kids := [{ id := "K", name := "K", points := -1 }], chores := [], rewards := [],
    completions := [], payouts := [], settings := defaultSettings }

/-- A backup blob carrying two completions with the same (kid, chore, date). -/
def duplicateImport : ImportedState :=
  { kids := [], chores := [], rewards := [],
    completions :=
      [{ id := "x1", choreId := "C", kidId := "K", date := 1, completed := true },
       { id := "x2", choreId := "C", kidId := "K", date := 1, completed := true }],
    payouts := [], settings := defaultSettings }

/-! ## General helper lemmas -/

theorem map_eq_self_of {α : Type _} (l : List α) (f : α → α) (h : ∀ x ∈ l, f x = x) :
    l.map f = l := by
  induction l with
  | nil => rfl
  | cons x xs ih =>
    simp only [List.map_cons, h x (by simp)]
    rw [ih (fun y hy => h y (by simp [hy]))]

theorem mapExcept_ok {α β : Type _} (f : α → Except ReducerError β) (g : α → β) (l : List α)
    (h : ∀ x ∈ l, f x = .ok (g x)) : mapExcept f l = .ok (l.map g) := by
  induction l with
  | nil => rfl
  | cons x xs ih =>
    simp only [mapExcept, h x (by simp), ih (fun y hy => h y (by simp [hy])), List.map_cons]

theorem mapExcept_error_mem {α β : Type _} (f : α → Except ReducerError β) (e : ReducerError)
    (l : List α) (h : mapExcept f l = .error e) : ∃ x ∈ l, f x = .error e := by
  induction l with
  | nil => cases h
  | cons x xs ih =>
    simp only [mapExcept] at h
    cases hf : f x with
    | error e2 =>
      simp only [hf] at h
      injection h with h2
      exact ⟨x, by simp, by rw [hf, h2]⟩
    | ok y =>
      simp only [hf] at h
      cases hm : mapExcept f xs with
      | error e3 =>
        simp only [hm] at h
        injection h with h3
        obtain ⟨z, hz, hze⟩ := ih (h3 ▸ hm)
        exact ⟨z, by simp [hz], hze⟩
      | ok ys => simp only [hm] at h; cases h

theorem mapExcept_error_of_mem {α β : Type _} (f : α → Except ReducerError β) (e : ReducerError)
    (l : List α) (hall : ∀ y ∈ l, f y = .error e ∨ ∃ b, f y = .ok b)
    (hex : ∃ x ∈ l, f x = .error e) : mapExcept f l = .error e := by
  induction l with
  | nil => obtain ⟨x, hx, _⟩ := hex; cases hx
  | cons x xs ih =>
    rcases hall x (by simp) with h | ⟨b, hb⟩
    · simp only [mapExcept, h]
    · have hxs : mapExcept f xs = .error e := by
        apply ih (fun y hy => hall y (by simp [hy]))
        obtain ⟨z, hz, hze⟩ := hex
        rcases List.mem_cons.mp hz with rfl | hz2
        · rw [hb] at hze; cases hze
        · exact ⟨z, hz2, hze⟩
      simp only [mapExcept, hb, hxs]

/-! ## C2: the ten-day streak scenario -/

/-- C2: starting from one kid K with one daily chore worth 3 points assigned
only to K, toggling the chore complete on days 1..10 yields 35 points for K
and exactly one StreakBonus, of streak length 10; un-toggling day 10 then
yields 27 points, no StreakBonus records, and streak counter 0 for K on the
chore. -/
theorem ten_day_streak_scenario :
    scenarioDay10.kids.map Kid.points = [35] ∧
    scenarioDay10.streakBonuses.map StreakBonus.streakLength = [10] ∧
    scenarioAfterUndo.kids.map Kid.points = [27] ∧
    scenarioAfterUndo.streakBonuses = [] ∧
    scenarioAfterUndo.chores.map (fun ch => getk ch.streakByKid "K") = [0] := by
  decide

/-! ## C8: loadState defaults -/

/-- C8 counterexample: on absent stored data, loadState returns schema
version 2 (not 3) and an object carrying no adjustments collection at all. -/
theorem loadState_default_counterexample :
    (loadState .absent).version ≠ 3 ∧ (loadState .absent).adjustments = none := by
  decide

/-- C8 amended: loadState is total (it returns a value on every input); on
absent or unparseable stored data it returns the version-2 default with
empty kids/chores/rewards/completions/payouts, settings
{dollarsPerPoint = 0.1, hideCompletedOnBoard = true}, and no adjustments or
streakBonuses fields. -/
theorem loadState_default_shape :
    loadState .absent = loadDefaults ∧ loadState .unparseable = loadDefaults ∧
    loadDefaults =
      { kids := [], chores := [], rewards := [], completions := [], payouts := [],
        settings := defaultSettings, version := 2, adjustments := none, streakBonuses := none } ∧
    defaultSettings.dollarsPerPoint = 1 / 10 ∧
    defaultSettings.hideCompletedOnBoard = true :=
  ⟨rfl, rfl, rfl, pointRate_eq, rfl⟩

/-! ## C6: adjusting an unknown kid id -/

/-- C6 counterexample: adjusting an unknown kid id is not a no-op — the
returned state carries a new Adjustment record. -/
theorem adjust_unknown_kid_counterexample :
    stepD defaultState (.adjustPointsWithReason "a1" "t1" "K" 5 "helping") ≠ defaultState := by
  decide

/-- C6 amended: ADJUST_POINTS_WITH_REASON for a kid id not present in
state.kids leaves every kid (hence every balance) unchanged, but still
prepends an Adjustment record referencing the unknown kid; the rest of the
state is untouched. -/
theorem adjust_unknown_kid_appends_log (s : State) (freshId nowISO kidId reason : String)
    (delta : Int) (h : ∀ k ∈ s.kids, k.id ≠ kidId) :
    reducer s (.adjustPointsWithReason freshId nowISO kidId delta reason) =
      .ok { s with adjustments :=
        { id := freshId, kidId := kidId, delta := delta,
          reason := if trimStr reason == "" then (if delta > 0 then "+" else "-") ++ "adjust"
                    else trimStr reason,
          timestampISO := nowISO } :: s.adjustments } := by
  simp only [reducer]
  rw [map_eq_self_of s.kids _ (fun k hk => by simp [beq_iff_eq, h k hk])]

theorem adjust_unknown_kid_appends_log_witness :
    reducer defaultState (.adjustPointsWithReason "a1" "t1" "K" 5 "helping") =
      .ok { defaultState with adjustments :=
        [{ id := "a1", kidId := "K", delta := 5, reason := "helping", timestampISO := "t1" }] } := by
  rw [adjust_unknown_kid_appends_log defaultState "a1" "t1" "K" "helping" 5
    (fun k hk => absurd hk (List.not_mem_nil k))]
  exact congrArg Except.ok (by decide)

/-! ## Counterexamples for C3, C4, C5, C7 -/

/-- C3 counterexample: REPLACE_ALL adopts a backup wholesale, so a payload
with a negative balance drives a kid's points negative even from the
all-non-negative default state. -/
theorem nonneg_points_counterexample :
    (∀ k ∈ defaultState.kids, 0 ≤ k.points) ∧
    ¬ (∀ k ∈ (stepD defaultState (.replaceAll negativeImport)).kids, 0 ≤ k.points) := by
  decide

/-- C4 counterexample: when no kid matches the toggled kidId, the
chore.points dereference is never reached, so toggling a completion for a
chore id absent from the state succeeds silently (and changes the state)
instead of failing. -/
theorem toggle_missing_chore_counterexample :
    reducer defaultState (.toggleComplete "c1" "b1" "K" "C" 1) =
      .ok { defaultState with completions :=
        [{ id := "c1", choreId := "C", kidId := "K", date := 1, completed := true }] } := by
  rfl

/-- C5 counterexample: a REPLACE_ALL action smuggles in two completions with
the same (kidId, choreId, date), so the uniqueness invariants fail after a
one-action sequence from the default state. -/
theorem unique_invariant_counterexample :
    ¬ StateUnique (applyActions defaultState [.replaceAll duplicateImport]) := by
  decide

/-! ## Toggle helper lemmas -/

theorem toggleCompletions_not_found (kidId choreId : String) (dateISO : Int) (fid : String)
    (l : List Completion) (h : ∀ c ∈ l, matchesTriple kidId choreId dateISO c = false) :
    toggleCompletions kidId choreId dateISO fid l =
      (l ++ [{ id := fid, choreId := choreId, kidId := kidId, date := dateISO, completed := true }],
       true, false) := by
  induction l with
  | nil => rfl
  | cons c rest ih =>
    simp only [toggleCompletions, h c (by simp), Bool.false_eq_true, if_false,
      ih (fun y hy => h y (by simp [hy])), List.cons_append]

theorem toggle_wasChecked_eq (kidId choreId : String) (dateISO : Int) (fid : String)
    (l : List Completion) :
    (toggleCompletions kidId choreId dateISO fid l).2.2 =
      !(toggleCompletions kidId choreId dateISO fid l).2.1 := by
  induction l with
  | nil => rfl
  | cons c rest ih =>
    cases hm : matchesTriple kidId choreId dateISO c with
    | true => cases hc : c.completed <;> simp [toggleCompletions, hm, hc]
    | false => simpa [toggleCompletions, hm] using ih

theorem updateKidPoints_skip (chore? : Option Chore) (choreId kidId : String) (wc cp : Bool)
    (k : Kid) (hk : k.id ≠ kidId) :
    updateKidPoints chore? choreId kidId wc cp k = .ok k := by
  simp [updateKidPoints, hk]

theorem updateKidPoints_none_error (choreId kidId : String) (cp : Bool) (k : Kid)
    (hk : k.id = kidId) :
    updateKidPoints none choreId kidId (!cp) cp k = .error (.choreNotFound choreId) := by
  cases cp <;> simp [updateKidPoints, hk]

theorem updateKidPoints_error_elim (chore? : Option Chore) (choreId kidId : String)
    (wc cp : Bool) (k : Kid) (e : ReducerError)
    (h : updateKidPoints chore? choreId kidId wc cp k = .error e) :
    e = .choreNotFound choreId ∧ k.id = kidId := by
  by_cases hk : k.id = kidId
  · refine ⟨?_, hk⟩
    simp only [updateKidPoints, hk, beq_self_eq_true, if_true] at h
    cases hco : chore? with
    | some ch =>
      rw [hco] at h
      split at h
      · cases h
      · split at h
        · cases h
        · cases h
    | none =>
      rw [hco] at h
      split at h
      · injection h with h2; exact h2.symm
      · split at h
        · injection h with h2; exact h2.symm
        · cases h
  · rw [updateKidPoints_skip _ _ _ _ _ k hk] at h; cases h

/-! ## C4: toggling an unknown chore id -/

/-- C4 amended: with no chore matching the toggled choreId, the transition
fails (the unchecked chore lookup faults) exactly when some kid in
state.kids carries the toggled kidId; when no kid matches, the dereference
is never reached and the transition silently succeeds instead of failing. -/
theorem toggle_missing_chore_fails_iff (s : State) (fc fb kidId choreId : String) (d : Int)
    (hchore : ∀ ch ∈ s.chores, ch.id ≠ choreId) :
    reducer s (.toggleComplete fc fb kidId choreId d) = .error (.choreNotFound choreId)
      ↔ ∃ k ∈ s.kids, k.id = kidId := by
  have hfind : s.chores.find? (fun c => c.id == choreId) = none := by
    rw [List.find?_eq_none]
    intro ch hch
    simpa using hchore ch hch
  simp only [reducer, reducerToggle, hfind]
  rw [toggle_wasChecked_eq kidId choreId d fc s.completions]
  cases hm : mapExcept (updateKidPoints none choreId kidId
      (!(toggleCompletions kidId choreId d fc s.completions).2.1)
      (toggleCompletions kidId choreId d fc s.completions).2.1) s.kids with
  | error e =>
    obtain ⟨k, hk, hke⟩ := mapExcept_error_mem _ _ _ hm
    obtain ⟨he, hkid⟩ := updateKidPoints_error_elim _ _ _ _ _ _ _ hke
    subst he
    exact iff_of_true rfl ⟨k, hk, hkid⟩
  | ok kids =>
    constructor
    · intro h; cases h
    · rintro ⟨k, hk, hkid⟩
      have : mapExcept (updateKidPoints none choreId kidId
          (!(toggleCompletions kidId choreId d fc s.completions).2.1)
          (toggleCompletions kidId choreId d fc s.completions).2.1) s.kids =
          .error (.choreNotFound choreId) := by
        apply mapExcept_error_of_mem
        · intro y hy
          by_cases hy2 : y.id = kidId
          · exact Or.inl (updateKidPoints_none_error choreId kidId _ y hy2)
          · exact Or.inr ⟨y, updateKidPoints_skip _ _ _ _ _ y hy2⟩
        · exact ⟨k, hk, updateKidPoints_none_error choreId kidId _ k hkid⟩
      rw [hm] at this
      cases this

theorem toggle_missing_chore_fails_iff_witness :
    reducer { defaultState with kids := [scenarioKid] } (.toggleComplete "c1" "b1" "K" "C" 1) =
      .error (.choreNotFound "C") :=
  (toggle_missing_chore_fails_iff { defaultState with kids := [scenarioKid] } "c1" "b1" "K" "C" 1
    (fun ch hch => absurd hch (List.not_mem_nil ch))).mpr ⟨scenarioKid, by simp, rfl⟩

/-! ## C10: toggling for an unknown kid id -/

/-- C10: toggling a completion for a kid id absent from state.kids, with the
chore present and no prior record for the triple, succeeds: a new Completion
referencing the nonexistent kid is pushed at the end of the completions, and
the kids list (hence every balance) is unchanged. -/
theorem toggle_unknown_kid_dangling (s : State) (fc fb kidId choreId : String) (dateISO : Int)
    (hkid : ∀ k ∈ s.kids, k.id ≠ kidId)
    (hchore : ∃ ch ∈ s.chores, ch.id = choreId)
    (hcomp : ∀ c ∈ s.completions, matchesTriple kidId choreId dateISO c = false) :
    ∃ s2, reducer s (.toggleComplete fc fb kidId choreId dateISO) = .ok s2 ∧
      s2.kids = s.kids ∧
      s2.completions = s.completions ++
        [{ id := fc, choreId := choreId, kidId := kidId, date := dateISO, completed := true }] := by
  simp only [reducer, reducerToggle,
    toggleCompletions_not_found kidId choreId dateISO fc s.completions hcomp]
  rw [mapExcept_ok _ (fun k => k) s.kids
    (fun k hk => updateKidPoints_skip _ _ _ _ _ k (hkid k hk))]
  refine ⟨_, rfl, ?_, rfl⟩
  show (if _ then _ else _ : List Kid × List StreakBonus).1 = s.kids
  rw [List.map_id']
  split
  · split
    · exact map_eq_self_of _ _ (fun k hk => by simp [hkid k hk])
    · rfl
  · split
    · exact map_eq_self_of _ _ (fun k hk => by simp [hkid k hk])
    · rfl

theorem toggle_unknown_kid_dangling_witness :
    ∃ s2, reducer { defaultState with chores := [scenarioChore] }
        (.toggleComplete "c1" "b1" "K" "C" 1) = .ok s2 ∧
      s2.kids = ({ defaultState with chores := [scenarioChore] } : State).kids ∧
      s2.completions = ({ defaultState with chores := [scenarioChore] } : State).completions ++
        [{ id := "c1", choreId := "C", kidId := "K", date := 1, completed := true }] :=
  toggle_unknown_kid_dangling _ "c1" "b1" "K" "C" 1
    (fun k hk => absurd hk (List.not_mem_nil k))
    ⟨scenarioChore, by simp, rfl⟩
    (fun c hc => absurd hc (List.not_mem_nil c))

/-! ## C7: reorder lemmas -/

theorem insertOrd_perm (x : Chore) (l : List Chore) : (insertOrd x l).Perm (x :: l) := by
  induction l with
  | nil => exact List.Perm.refl _
  | cons y ys ih =>
    by_cases h : choreSortKey x < choreSortKey y
    · simp [insertOrd, h]
    · simp only [insertOrd, if_neg h]
      exact (ih.cons y).trans (List.Perm.swap x y ys)

theorem foldl_insertOrd_perm (l : List Chore) :
    ∀ acc, ((l.foldl (fun a x => insertOrd x a) acc)).Perm (acc ++ l) := by
  induction l with
  | nil => intro acc; simp
  | cons x xs ih =>
    intro acc
    simp only [List.foldl_cons]
    refine (ih (insertOrd x acc)).trans ?_
    refine (List.Perm.append_right xs (insertOrd_perm x acc)).trans ?_
    exact List.perm_middle.symm

theorem sortByOrder_perm (l : List Chore) : (sortByOrder l).Perm l := by
  simpa using foldl_insertOrd_perm l []

theorem mem_sortByOrder (x : Chore) (l : List Chore) : x ∈ sortByOrder l ↔ x ∈ l :=
  (sortByOrder_perm l).mem_iff

theorem orderMapGo_not_mem (id : String) (l : List String) (h : id ∉ l) :
    ∀ i, orderMapGo id i l = none := by
  induction l with
  | nil => intro i; rfl
  | cons x xs ih =>
    intro i
    simp only [List.mem_cons, not_or] at h
    have hx : (x == id) = false := by
      simp only [beq_eq_false_iff_ne, ne_eq]
      exact fun hxy => h.1 hxy.symm
    simp [orderMapGo, ih h.2, hx]

theorem orderMapGo_get (l : List String) (hnd : l.Nodup) (j : Nat) (hj : j < l.length) :
    ∀ i : Int, orderMapGo (l.get ⟨j, hj⟩) i l = some (i + j + 1) := by
  induction l generalizing j with
  | nil => exact absurd hj (by simp)
  | cons x xs ih =>
    intro i
    cases j with
    | zero =>
      have hx : x ∉ xs := (List.nodup_cons.mp hnd).1
      simp [orderMapGo, orderMapGo_not_mem x xs hx (i + 1)]
    | succ j2 =>
      have hnd2 := (List.nodup_cons.mp hnd).2
      have hj2 : j2 < xs.length := by simpa using Nat.lt_of_succ_lt_succ hj
      simp only [List.get_cons_succ, orderMapGo, ih hnd2 j2 hj2 (i + 1)]
      congr 1
      push_cast
      ring

/-- C7 amended: REORDER_CHORES assigns order j+1 to the chore whose id sits
at 0-based position j of the (duplicate-free) id list; a chore whose id is
not mentioned keeps its existing order value, with 9999 only as the fallback
when it has none; and the concrete scenario reordering chores [A,B,C] with
the list [C,A,B] yields exactly [C,A,B] when read back sorted by order. -/
theorem reorder_chores_spec (s : State) (orderedIds : List String) :
    (∀ c ∈ s.chores, orderedIds.Nodup → ∀ (j : Nat) (hj : j < orderedIds.length),
        c.id = orderedIds.get ⟨j, hj⟩ →
        { c with order := some ((j : Int) + 1) } ∈ (stepD s (.reorderChores orderedIds)).chores) ∧
    (∀ c ∈ s.chores, c.id ∉ orderedIds →
        { c with order := some (c.order.getD 9999) } ∈ (stepD s (.reorderChores orderedIds)).chores) ∧
    (stepD reorderState (.reorderChores ["C", "A", "B"])).chores.map Chore.id = ["C", "A", "B"] := by
  refine ⟨?_, ?_, by decide⟩
  · intro c hc hnd j hj hcid
    simp only [stepD, reducer]
    rw [mem_sortByOrder]
    have hv : orderMapGet orderedIds c.id = some ((j : Int) + 1) := by
      rw [orderMapGet, hcid, orderMapGo_get orderedIds hnd j hj 0]
      congr 1
      omega
    have h2 : ({ c with order := some ((j : Int) + 1) } : Chore) =
        { c with order := some ((orderMapGet orderedIds c.id).getD (c.order.getD 9999)) } := by
      rw [hv]; rfl
    rw [h2]
    exact List.mem_map_of_mem _ hc
  · intro c hc hnm
    simp only [stepD, reducer]
    rw [mem_sortByOrder]
    have hv : orderMapGet orderedIds c.id = none := orderMapGo_not_mem c.id orderedIds hnm 0
    have h2 : ({ c with order := some (c.order.getD 9999) } : Chore) =
        { c with order := some ((orderMapGet orderedIds c.id).getD (c.order.getD 9999)) } := by
      rw [hv]; rfl
    rw [h2]
    exact List.mem_map_of_mem _ hc

theorem reorder_chores_spec_witness :
    ({ id := "A", title := "A", points := 1, schedule := .daily, assignedKidIds := [],
       streakByKid := [], order := some 2 } : Chore) ∈
      (stepD reorderState (.reorderChores ["C", "A", "B"])).chores := by
  have h := (reorder_chores_spec reorderState ["C", "A", "B"]).1
    { id := "A", title := "A", points := 1, schedule := .daily, assignedKidIds := [],
      streakByKid := [], order := some 1 }
    (by decide) (by decide) 1 (by decide) (by decide)
  simpa using h

/-- C7 counterexample: a chore not mentioned in the reorder list keeps its
existing order value (here 1) instead of receiving the 9999 fallback, so it
does not sort last. -/
theorem reorder_counterexample :
    (stepD reorderTwoState (.reorderChores ["B"])).chores.map (fun c => (c.id, c.order)) =
      [("A", some 1), ("B", some 1)] ∧
    (stepD reorderTwoState (.reorderChores ["B"])).chores.map Chore.id ≠ ["B", "A"] := by
  decide

/-! ## C9: termination of the backward full-day walk -/

theorem full_day_has_completion (s : State) (kidId : String) (d : Int)
    (h : isFullDayDone s kidId d = true) : ∃ c ∈ s.completions, c.date = d := by
  simp only [isFullDayDone] at h
  split at h
  · cases h
  · rename_i hne
    obtain ⟨ch, hch⟩ : ∃ ch, ch ∈ choresDueForKidOnDate s kidId d := by
      cases hdue : choresDueForKidOnDate s kidId d with
      | nil => rw [hdue] at hne; simp at hne
      | cons a l => exact ⟨a, by simp [hdue]⟩
    have hall := (List.all_eq_true.mp h) ch hch
    obtain ⟨c, hc, hcp⟩ := List.any_eq_true.mp hall
    refine ⟨c, hc, ?_⟩
    simp only [Bool.and_eq_true, beq_iff_eq] at hcp
    exact hcp.1.2

theorem run_le_completions (s : State) (kidId : String) (d : Int) (k : Nat)
    (h : ∀ j < k, isFullDayDone s kidId (d - j) = true) : k ≤ s.completions.length := by
  have hsub : ((List.range k).map (fun j : Nat => d - (j : Int))) ⊆
      s.completions.map Completion.date := by
    intro x hx
    simp only [List.mem_map, List.mem_range] at hx
    obtain ⟨j, hj, rfl⟩ := hx
    obtain ⟨c, hc, hcd⟩ := full_day_has_completion s kidId (d - j) (h j hj)
    exact List.mem_map.mpr ⟨c, hc, hcd⟩
  have hnd : ((List.range k).map (fun j : Nat => d - (j : Int))).Nodup := by
    refine (List.nodup_range k).map ?_
    intro a b hab
    dsimp only at hab
    omega
  have hlen := (List.subperm_of_subset hnd hsub).length_le
  simpa using hlen

theorem consecFuel_full (s : State) (kidId : String) :
    ∀ (fuel : Nat) (d : Int) (j : Nat), j < consecFuel s kidId fuel d →
      isFullDayDone s kidId (d - j) = true := by
  intro fuel
  induction fuel with
  | zero => intro d j hj; simp [consecFuel] at hj
  | succ f ih =>
    intro d j hj
    simp only [consecFuel] at hj
    by_cases hf : isFullDayDone s kidId d = true
    · rw [if_pos hf] at hj
      cases j with
      | zero => simpa using hf
      | succ j2 =>
        have hj2 : j2 < consecFuel s kidId f (d - 1) := by omega
        have hfull := ih (d - 1) j2 hj2
        have harith : d - 1 - (j2 : Int) = d - ((j2 + 1 : Nat) : Int) := by push_cast; ring
        rw [harith] at hfull
        exact hfull
    · rw [if_neg hf] at hj
      omega

theorem consecFuel_le (s : State) (kidId : String) :
    ∀ (fuel : Nat) (d : Int), consecFuel s kidId fuel d ≤ fuel := by
  intro fuel
  induction fuel with
  | zero => intro d; simp [consecFuel]
  | succ f ih =>
    intro d
    simp only [consecFuel]
    split
    · have := ih (d - 1); omega
    · omega

theorem consecFuel_stop (s : State) (kidId : String) :
    ∀ (fuel : Nat) (d : Int), consecFuel s kidId fuel d < fuel →
      isFullDayDone s kidId (d - (consecFuel s kidId fuel d : Int)) = false := by
  intro fuel
  induction fuel with
  | zero => intro d h; omega
  | succ f ih =>
    intro d h
    simp only [consecFuel] at h ⊢
    by_cases hf : isFullDayDone s kidId d = true
    · rw [if_pos hf] at h ⊢
      have h2 : consecFuel s kidId f (d - 1) < f := by omega
      have hstop := ih (d - 1) h2
      have harith : d - 1 - (consecFuel s kidId f (d - 1) : Int) =
          d - ((consecFuel s kidId f (d - 1) + 1 : Nat) : Int) := by push_cast; ring
      rw [harith] at hstop
      exact hstop
    · rw [if_neg hf] at h ⊢
      simp only [Bool.not_eq_true] at hf
      simpa using hf

theorem consec_lt_fuel (s : State) (kidId : String) (d : Int) :
    consecFuel s kidId (s.completions.length + 1) d < s.completions.length + 1 := by
  by_contra hge
  push_neg at hge
  have hle := consecFuel_le s kidId (s.completions.length + 1) d
  have heq : consecFuel s kidId (s.completions.length + 1) d = s.completions.length + 1 :=
    le_antisymm hle hge
  have hfull : ∀ j < s.completions.length + 1, isFullDayDone s kidId (d - j) = true := by
    intro j hj
    exact consecFuel_full s kidId _ d j (heq ▸ hj)
  have := run_le_completions s kidId d (s.completions.length + 1) hfull
  omega

/-- C9: the backward day-by-day walk terminates for every state and returns
the exact run length: every counted day (dateISO - j for j below the result)
is a full day, the first day past the run is not full, and a day with zero
chores due for the kid is never full. -/
theorem consecutive_full_days_spec (s : State) (kidId : String) (dateISO : Int) :
    isFullDayDone s kidId (dateISO - (consecutiveFullDaysEndingOn s kidId dateISO : Int)) = false ∧
    (∀ j : Nat, j < consecutiveFullDaysEndingOn s kidId dateISO →
      isFullDayDone s kidId (dateISO - (j : Int)) = true) ∧
    (∀ d : Int, choresDueForKidOnDate s kidId d = [] → isFullDayDone s kidId d = false) := by
  refine ⟨?_, ?_, ?_⟩
  · exact consecFuel_stop s kidId _ dateISO (consec_lt_fuel s kidId dateISO)
  · exact fun j hj => consecFuel_full s kidId _ dateISO j hj
  · intro d hd
    simp [isFullDayDone, hd]

theorem consecutive_full_days_spec_witness :
    isFullDayDone scenarioDay10 "K" ((10 : Int) - ((9 : Nat) : Int)) = true ∧
    isFullDayDone scenarioDay10 "K"
      ((10 : Int) - (consecutiveFullDaysEndingOn scenarioDay10 "K" 10 : Int)) = false :=
  ⟨(consecutive_full_days_spec scenarioDay10 "K" 10).2.1 9 (by decide),
   (consecutive_full_days_spec scenarioDay10 "K" 10).1⟩

/-! ## C3: non-negative balances -/

theorem mapExcept_ok_mem {α β : Type _} (f : α → Except ReducerError β) (l : List α)
    (ys : List β) (h : mapExcept f l = .ok ys) : ∀ y ∈ ys, ∃ x ∈ l, f x = .ok y := by
  induction l generalizing ys with
  | nil =>
    injection h with h2
    subst h2
    intro y hy
    cases hy
  | cons x xs ih =>
    simp only [mapExcept] at h
    cases hf : f x with
    | error e => simp only [hf] at h; cases h
    | ok y0 =>
      simp only [hf] at h
      cases hm : mapExcept f xs with
      | error e => simp only [hm] at h; cases h
      | ok ys0 =>
        simp only [hm] at h
        injection h with h2
        subst h2
        intro y hy
        rcases List.mem_cons.mp hy with rfl | hy2
        · exact ⟨x, by simp, hf⟩
        · obtain ⟨z, hz, hze⟩ := ih ys0 hm y hy2
          exact ⟨z, by simp [hz], hze⟩

theorem updateKidPoints_ok_nonneg (chore? : Option Chore) (choreId kidId : String)
    (wc cp : Bool) (k k2 : Kid) (hok : updateKidPoints chore? choreId kidId wc cp k = .ok k2)
    (hkp : 0 ≤ k.points) (hcp2 : ∀ ch, chore? = some ch → 0 ≤ ch.points) :
    0 ≤ k2.points := by
  simp only [updateKidPoints] at hok
  split at hok
  · split at hok
    · cases hcc : chore? with
      | none => rw [hcc] at hok; cases hok
      | some ch =>
        rw [hcc] at hok
        injection hok with h2
        subst h2
        have := hcp2 ch hcc
        simp only []
        omega
    · split at hok
      · cases hcc : chore? with
        | none => rw [hcc] at hok; cases hok
        | some ch =>
          rw [hcc] at hok
          injection hok with h2
          subst h2
          exact le_max_left 0 _
      · injection hok with h2; subst h2; exact hkp
  · injection hok with h2; subst h2; exact hkp

/-- C3 amended: every action other than REPLACE_ALL preserves non-negativity
of all kid balances, provided every chore's point value is non-negative (as
the data model requires); REPLACE_ALL instead adopts its payload's balances
wholesale, negative or not. -/
theorem reducer_preserves_nonneg_points (s : State) (a : Action)
    (hk : ∀ k ∈ s.kids, 0 ≤ k.points) (hc : ∀ c ∈ s.chores, 0 ≤ c.points)
    (hrep : a.isReplaceAll = false) (s2 : State) (hstep : reducer s a = .ok s2) :
    ∀ k ∈ s2.kids, 0 ≤ k.points := by
  cases a with
  | addKid fid nm col em =>
    simp only [reducer] at hstep
    injection hstep with h2
    subst h2
    intro k hk2
    rcases List.mem_append.mp hk2 with h | h
    · exact hk k h
    · rcases List.mem_singleton.mp h with rfl
      exact le_refl 0
  | adjustPointsWithReason fid now kidId delta reason =>
    simp only [reducer] at hstep
    injection hstep with h2
    subst h2
    intro k hk2
    obtain ⟨k0, hk0, rfl⟩ := List.mem_map.mp hk2
    by_cases hid : (k0.id == kidId) = true
    · simp only [hid, if_true]
      exact le_max_left 0 _
    · simp only [hid, Bool.false_eq_true, if_false]
      exact hk k0 hk0
  | updateSettings dpp hcb =>
    simp only [reducer] at hstep
    injection hstep with h2
    subst h2
    exact hk
  | addChore fid nc =>
    simp only [reducer] at hstep
    injection hstep with h2
    subst h2
    exact hk
  | deleteChore id =>
    simp only [reducer] at hstep
    injection hstep with h2
    subst h2
    exact hk
  | reorderChores ids =>
    simp only [reducer] at hstep
    injection hstep with h2
    subst h2
    exact hk
  | addReward fid t c =>
    simp only [reducer] at hstep
    injection hstep with h2
    subst h2
    exact hk
  | redeemReward kid rew =>
    simp only [reducer] at hstep
    injection hstep with h2
    subst h2
    exact hk
  | deleteReward id =>
    simp only [reducer] at hstep
    injection hstep with h2
    subst h2
    exact hk
  | payout fid now kid per st en pts =>
    simp only [reducer] at hstep
    injection hstep with h2
    subst h2
    exact hk
  | resetAll =>
    simp only [reducer] at hstep
    injection hstep with h2
    subst h2
    intro k hk2
    cases hk2
  | replaceAll p => simp [Action.isReplaceAll] at hrep
  | toggleComplete fc fb kidId choreId dateISO =>
    simp only [reducer, reducerToggle] at hstep
    cases hm : mapExcept (updateKidPoints (s.chores.find? (fun c => c.id == choreId)) choreId
        kidId (toggleCompletions kidId choreId dateISO fc s.completions).2.2
        (toggleCompletions kidId choreId dateISO fc s.completions).2.1) s.kids with
    | error e => rw [hm] at hstep; cases hstep
    | ok kids1 =>
      rw [hm] at hstep
      have hk1 : ∀ y ∈ kids1, 0 ≤ y.points := by
        intro y hy
        obtain ⟨x, hx, hxy⟩ := mapExcept_ok_mem _ _ _ hm y hy
        exact updateKidPoints_ok_nonneg _ _ _ _ _ x y hxy (hk x hx)
          (fun ch hch => hc ch (List.mem_of_find?_eq_some hch))
      injection hstep with h2
      subst h2
      intro k hk2
      split at hk2
      · split at hk2
        · obtain ⟨k0, hk0, rfl⟩ := List.mem_map.mp hk2
          by_cases hid : (k0.id == kidId) = true
          · simp only [hid, if_true]
            have := hk1 k0 hk0
            show 0 ≤ k0.points + 5
            omega
          · simp only [hid, Bool.false_eq_true, if_false]
            exact hk1 k0 hk0
        · exact hk1 k hk2
      · split at hk2
        · obtain ⟨k0, hk0, rfl⟩ := List.mem_map.mp hk2
          by_cases hid : (k0.id == kidId) = true
          · simp only [hid, if_true]
            exact le_max_left 0 _
          · simp only [hid, Bool.false_eq_true, if_false]
            exact hk1 k0 hk0
        · exact hk1 k hk2

theorem reducer_preserves_nonneg_points_witness :
    0 ≤ ({ id := "k1", name := trimStr "Kim", points := 0,
           color := some "#c9e4ff" } : Kid).points :=
  reducer_preserves_nonneg_points defaultState (.addKid "k1" "Kim" none none)
    (fun k hk => absurd hk (List.not_mem_nil k)) (fun c hc => absurd hc (List.not_mem_nil c))
    rfl _ rfl _ (by decide)

/-! ## C5: uniqueness invariants -/

theorem matchesTriple_iff (kidId choreId : String) (dateISO : Int) (c : Completion) :
    matchesTriple kidId choreId dateISO c = true ↔
      completionTriple c = (kidId, choreId, dateISO) := by
  simp [matchesTriple, completionTriple, Prod.ext_iff, and_assoc]

theorem toggleCompletions_triples (kidId choreId : String) (dateISO : Int) (fid : String)
    (l : List Completion) :
    ∀ x ∈ (toggleCompletions kidId choreId dateISO fid l).1,
      completionTriple x ∈ l.map completionTriple ∨
        completionTriple x = (kidId, choreId, dateISO) := by
  induction l with
  | nil =>
    intro x hx
    rcases List.mem_singleton.mp hx with rfl
    exact Or.inr rfl
  | cons c rest ih =>
    intro x hx
    simp only [toggleCompletions] at hx
    by_cases hm : matchesTriple kidId choreId dateISO c = true
    · rw [if_pos hm] at hx
      by_cases hc : c.completed = true
      · rw [if_pos hc] at hx
        exact Or.inl (List.mem_map_of_mem _ (List.mem_cons_of_mem c hx))
      · rw [if_neg hc] at hx
        rcases List.mem_cons.mp hx with rfl | hx2
        · exact Or.inr ((matchesTriple_iff kidId choreId dateISO c).mp hm)
        · exact Or.inl (List.mem_map_of_mem _ (List.mem_cons_of_mem c hx2))
    · rw [if_neg hm] at hx
      rcases List.mem_cons.mp hx with rfl | hx2
      · exact Or.inl (List.mem_map_of_mem _ (List.mem_cons_self _ _))
      · rcases ih x hx2 with hin | hkey
        · obtain ⟨z, hz, hzt⟩ := List.mem_map.mp hin
          exact Or.inl (List.mem_map.mpr ⟨z, List.mem_cons_of_mem c hz, hzt⟩)
        · exact Or.inr hkey

theorem toggleCompletions_unique (kidId choreId : String) (dateISO : Int) (fid : String)
    (l : List Completion) (h : CompletionsUnique l) :
    CompletionsUnique (toggleCompletions kidId choreId dateISO fid l).1 := by
  induction l with
  | nil => exact List.pairwise_singleton _ _
  | cons c rest ih =>
    rw [CompletionsUnique, List.pairwise_cons] at h
    simp only [toggleCompletions]
    by_cases hm : matchesTriple kidId choreId dateISO c = true
    · rw [if_pos hm]
      by_cases hc : c.completed = true
      · rw [if_pos hc]
        exact h.2
      · rw [if_neg hc]
        rw [CompletionsUnique, List.pairwise_cons]
        exact ⟨fun y hy => h.1 y hy, h.2⟩
    · rw [if_neg hm]
      rw [CompletionsUnique, List.pairwise_cons]
      constructor
      · intro y hy
        rcases toggleCompletions_triples kidId choreId dateISO fid rest y hy with hin | hkey
        · obtain ⟨z, hz, hzt⟩ := List.mem_map.mp hin
          rw [← hzt]
          exact h.1 z hz
        · rw [hkey]
          intro hceq
          exact hm ((matchesTriple_iff kidId choreId dateISO c).mpr hceq)
      · exact ih h.2

theorem bonus_unique_cons (sb : List StreakBonus) (kidId : String) (dateISO : Int)
    (b : StreakBonus)
    (hfind : sb.find? (fun x => x.kidId == kidId && x.dateISO == dateISO) = none)
    (hb : bonusKey b = (kidId, dateISO)) (h : BonusesUnique sb) :
    BonusesUnique (b :: sb) := by
  rw [BonusesUnique, List.pairwise_cons]
  refine ⟨?_, h⟩
  intro y hy
  have hnot := List.find?_eq_none.mp hfind y hy
  rw [hb]
  intro heq
  have h2 : y.kidId = kidId ∧ y.dateISO = dateISO := by
    have h3 := heq.symm
    simpa [bonusKey, Prod.ext_iff] using h3
  simp [h2.1, h2.2] at hnot

/-- One action preserves the pair of uniqueness invariants, as long as a
REPLACE_ALL payload itself satisfies them. -/
theorem stateUnique_step (s : State) (a : Action) (h : StateUnique s)
    (hrep : ∀ p, a = .replaceAll p →
      CompletionsUnique p.completions ∧ BonusesUnique (p.streakBonuses.getD [])) :
    StateUnique (stepD s a) := by
  obtain ⟨hcu, hbu⟩ := h
  cases a with
  | addKid fid nm col em => exact ⟨hcu, hbu⟩
  | adjustPointsWithReason fid now kidId delta reason => exact ⟨hcu, hbu⟩
  | updateSettings dpp hcb => exact ⟨hcu, hbu⟩
  | addChore fid nc => exact ⟨hcu, hbu⟩
  | deleteChore id =>
    exact ⟨hcu.sublist (List.filter_sublist _), hbu⟩
  | reorderChores ids => exact ⟨hcu, hbu⟩
  | addReward fid t c => exact ⟨hcu, hbu⟩
  | redeemReward kid rew => exact ⟨hcu, hbu⟩
  | deleteReward id => exact ⟨hcu, hbu⟩
  | payout fid now kid per st en pts => exact ⟨hcu, hbu⟩
  | resetAll => exact ⟨List.Pairwise.nil, List.Pairwise.nil⟩
  | replaceAll p => exact hrep p rfl
  | toggleComplete fc fb kidId choreId dateISO =>
    simp only [stepD, reducer, reducerToggle]
    cases hm : mapExcept (updateKidPoints (s.chores.find? (fun c => c.id == choreId)) choreId
        kidId (toggleCompletions kidId choreId dateISO fc s.completions).2.2
        (toggleCompletions kidId choreId dateISO fc s.completions).2.1) s.kids with
    | error e => exact ⟨hcu, hbu⟩
    | ok kids1 =>
      refine ⟨toggleCompletions_unique _ _ _ _ _ hcu, ?_⟩
      show BonusesUnique (if _ then _ else _ : List Kid × List StreakBonus).2
      split
      · split
        · rename_i hcond
          simp only [Bool.and_eq_true, Option.isNone_iff_eq_none] at hcond
          exact bonus_unique_cons s.streakBonuses kidId dateISO _ hcond.2 rfl hbu
        · exact hbu
      · split
        · exact hbu.sublist (List.filter_sublist _)
        · exact hbu

/-- C5 amended, generalized over the start state. -/
theorem unique_invariants_foldl (acts : List Action) :
    ∀ s0 : State, StateUnique s0 →
      (∀ p, Action.replaceAll p ∈ acts →
        CompletionsUnique p.completions ∧ BonusesUnique (p.streakBonuses.getD [])) →
      StateUnique (applyActions s0 acts) := by
  induction acts with
  | nil => exact fun s0 h0 _ => h0
  | cons a rest ih =>
    intro s0 h0 hrep
    simp only [applyActions, List.foldl_cons]
    exact ih (stepD s0 a)
      (stateUnique_step s0 a h0
        (fun p hp => hrep p (by rw [← hp]; exact List.mem_cons_self a rest)))
      (fun p hp => hrep p (List.mem_cons_of_mem a hp))

/-- C5 amended: starting from the default state, after any sequence of
actions in which every REPLACE_ALL payload itself satisfies the two
uniqueness invariants, the resulting state has at most one Completion per
(kidId, choreId, date) and at most one StreakBonus per (kidId, dateISO);
a REPLACE_ALL with a duplicate-carrying payload is adopted wholesale and
breaks the invariant. -/
theorem unique_invariants_after_actions (acts : List Action)
    (hrep : ∀ p, Action.replaceAll p ∈ acts →
      CompletionsUnique p.completions ∧ BonusesUnique (p.streakBonuses.getD [])) :
    StateUnique (applyActions defaultState acts) :=
  unique_invariants_foldl acts defaultState ⟨List.Pairwise.nil, List.Pairwise.nil⟩ hrep

theorem unique_invariants_after_actions_witness :
    StateUnique (applyActions defaultState [Action.toggleComplete "c1" "b1" "K" "C" 1]) :=
  unique_invariants_after_actions [Action.toggleComplete "c1" "b1" "K" "C" 1]
    (fun p hp => Action.noConfusion (List.mem_singleton.mp hp))

/-! ## C1: helper lemmas for the double-toggle round trip -/

/-- C1 counterexample: toggling day 2 complete and back restores K's points
and the completions, but resets the chore's streak counter for K to 0, not
to its pre-toggle value 1. -/
theorem toggle_twice_counterexample :
    (stepD (stepD rtState (.toggleComplete "c2" "b2" "K" "C" 2))
        (.toggleComplete "c3" "b3" "K" "C" 2)).kids = rtState.kids ∧
    (stepD (stepD rtState (.toggleComplete "c2" "b2" "K" "C" 2))
        (.toggleComplete "c3" "b3" "K" "C" 2)).completions = rtState.completions ∧
    (stepD (stepD rtState (.toggleComplete "c2" "b2" "K" "C" 2))
        (.toggleComplete "c3" "b3" "K" "C" 2)).chores.map (fun ch => getk ch.streakByKid "K") =
      [0] ∧
    rtState.chores.map (fun ch => getk ch.streakByKid "K") = [1] := by
  decide

theorem toggleCompletions_found_append (kidId choreId : String) (dateISO : Int)
    (fid fid2 : String) (l : List Completion)
    (h : ∀ c ∈ l, matchesTriple kidId choreId dateISO c = false) :
    toggleCompletions kidId choreId dateISO fid2
        (l ++ [{ id := fid, choreId := choreId, kidId := kidId, date := dateISO,
                 completed := true }]) =
      (l, false, true) := by
  induction l with
  | nil => simp [toggleCompletions, matchesTriple]
  | cons c rest ih =>
    have hrest := ih (fun y hy => h y (by simp [hy]))
    rw [List.cons_append]
    rw [toggleCompletions]
    rw [h c (by simp)]
    simp only [Bool.false_eq_true, if_false, hrest]

theorem find?_map_pres {α : Type _} (f : α → α) (p : α → Bool) (hf : ∀ x, p (f x) = p x)
    (l : List α) : (l.map f).find? p = (l.find? p).map f := by
  induction l with
  | nil => rfl
  | cons x xs ih =>
    simp only [List.map_cons, List.find?_cons]
    rw [hf x]
    cases hp : p x <;> simp [ih]

theorem all_congr_mem {α : Type _} (l : List α) (f g : α → Bool) (h : ∀ x ∈ l, f x = g x) :
    l.all f = l.all g := by
  induction l with
  | nil => rfl
  | cons x xs ih =>
    simp only [List.all_cons, h x (by simp), ih (fun y hy => h y (by simp [hy]))]

theorem updateChoreStreak_fields (s : State) (kidId choreId : String) (d : Int) (cp : Bool)
    (c : Chore) :
    (updateChoreStreak s kidId choreId d cp c).id = c.id ∧
    (updateChoreStreak s kidId choreId d cp c).assignedKidIds = c.assignedKidIds ∧
    (updateChoreStreak s kidId choreId d cp c).schedule = c.schedule := by
  simp only [updateChoreStreak]
  split <;> exact ⟨rfl, rfl, rfl⟩

theorem isFullDayDone_map_chores (s t : State) (kidId : String) (d : Int) (u : Chore → Chore)
    (hu : ∀ c, (u c).id = c.id ∧ (u c).assignedKidIds = c.assignedKidIds ∧
      (u c).schedule = c.schedule)
    (hch : t.chores = s.chores.map u) (hco : t.completions = s.completions) :
    isFullDayDone t kidId d = isFullDayDone s kidId d := by
  have hdue : ∀ c, isChoreDueOn (u c) d = isChoreDueOn c d := by
    intro c
    simp only [isChoreDueOn, (hu c).2.2]
  simp only [isFullDayDone, choresDueForKidOnDate, hch, hco]
  rw [List.filter_map]
  rw [List.filter_congr (fun c _ => by
    show (fun ch => ch.assignedKidIds.contains kidId && isChoreDueOn ch d) (u c) =
      (fun ch => ch.assignedKidIds.contains kidId && isChoreDueOn ch d) c
    simp only []
    rw [(hu c).2.1, hdue c])]
  rw [List.length_map, List.all_map]
  by_cases hlen : (((s.chores.filter
      (fun ch => ch.assignedKidIds.contains kidId && isChoreDueOn ch d)).length == 0)) = true
  · rw [if_pos hlen, if_pos hlen]
  · rw [if_neg hlen, if_neg hlen]
    apply all_congr_mem
    intro c hc
    show s.completions.any (fun cc =>
      cc.kidId == kidId && cc.choreId == (u c).id && cc.date == d && cc.completed) = _
    rw [(hu c).1]

theorem not_full_of_missing (s : State) (kidId : String) (d : Int) (ch : Chore)
    (hch : ch ∈ s.chores) (ha : ch.assignedKidIds.contains kidId = true)
    (hd : isChoreDueOn ch d = true)
    (hno : ∀ c ∈ s.completions, matchesTriple kidId ch.id d c = false) :
    isFullDayDone s kidId d = false := by
  simp only [isFullDayDone, choresDueForKidOnDate]
  split
  · rfl
  · have hmem : ch ∈ s.chores.filter
        (fun c2 => c2.assignedKidIds.contains kidId && isChoreDueOn c2 d) :=
      List.mem_filter.mpr ⟨hch, by rw [ha, hd]; exact rfl⟩
    rw [Bool.eq_false_iff]
    intro hall
    have hany := List.all_eq_true.mp hall ch hmem
    obtain ⟨c, hc, hcb⟩ := List.any_eq_true.mp hany
    simp only [Bool.and_eq_true] at hcb
    have hmt : matchesTriple kidId ch.id d c = true := by
      simp only [matchesTriple, Bool.and_eq_true]
      exact hcb.1
    rw [hno c hc] at hmt
    cases hmt

theorem setk_setk (m : Smap) (k : String) (v w : Int) :
    setk (setk m k v) k w = setk m k w := by
  by_cases h : m.any (fun p => p.1 == k) = true
  · simp only [setk, h, if_true]
    have h2 : ((m.map (fun p => if p.1 == k then (k, v) else p)).any
        (fun p => p.1 == k)) = true := by
      obtain ⟨p, hp, hpk⟩ := List.any_eq_true.mp h
      exact List.any_eq_true.mpr
        ⟨(k, v), List.mem_map.mpr ⟨p, hp, by simp [hpk]⟩, by simp⟩
    simp only [h2, if_true]
    rw [List.map_map]
    apply List.map_congr_left
    intro p hp
    by_cases hpk : (p.1 == k) = true <;> simp [Function.comp, hpk]
  · have hfalse : ∀ p ∈ m, (p.1 == k) = false := by
      intro p hp
      by_contra hcon
      exact h (List.any_eq_true.mpr ⟨p, hp, by simpa using hcon⟩)
    simp only [setk, h, Bool.false_eq_true, if_false]
    have h2 : ((m ++ [(k, v)]).any (fun p => p.1 == k)) = true := by simp
    simp only [h2, if_true, List.map_append]
    congr 1
    · apply map_eq_self_of
      intro p hp
      simp [hfalse p hp]
    · simp

theorem kids_round_trip_noaward (kidId : String) (c : Int) (hc : 0 ≤ c) (l : List Kid)
    (hl : ∀ k ∈ l, 0 ≤ k.points) :
    (l.map (fun k => if k.id == kidId then { k with points := k.points + c } else k)).map
      (fun k => if k.id == kidId then { k with points := max 0 (k.points - c) } else k) = l := by
  rw [List.map_map]
  apply map_eq_self_of
  intro k hk
  simp only [Function.comp]
  by_cases hid : (k.id == kidId) = true
  · have h2 : max 0 (k.points + c - c) = k.points := by have := hl k hk; omega
    simp only [hid, if_true, h2]
  · simp [hid]

theorem kids_round_trip_award (kidId : String) (c : Int) (hc : 0 ≤ c) (l : List Kid)
    (hl : ∀ k ∈ l, 0 ≤ k.points) :
    ((((l.map (fun k => if k.id == kidId then { k with points := k.points + c } else k)).map
        (fun k => if k.id == kidId then { k with points := k.points + 5 } else k)).map
        (fun k => if k.id == kidId then { k with points := max 0 (k.points - c) } else k)).map
        (fun k => if k.id == kidId then { k with points := max 0 (k.points - 5) } else k)) = l := by
  rw [List.map_map, List.map_map, List.map_map]
  apply map_eq_self_of
  intro k hk
  simp only [Function.comp]
  by_cases hid : (k.id == kidId) = true
  · have := hl k hk
    have h2 : max 0 (max 0 (k.points + c + 5 - c) - 5) = k.points := by omega
    simp only [hid, if_true, h2]
  · simp [hid]

/-- Toggling on, with no prior record for the triple, the chore found, and
no streak bonus yet for (kidId, dateISO): the record is appended, matching
kids gain the chore points, the streak map is bumped, and either one 5-point
bonus carrying the fresh id is awarded or the bonus log is untouched. -/
theorem reducerToggle_on (s : State) (fc fb kidId choreId : String) (dateISO : Int) (ch : Chore)
    (hfind : s.chores.find? (fun c => c.id == choreId) = some ch)
    (hnobonus : s.streakBonuses.find? (fun b => b.kidId == kidId && b.dateISO == dateISO) = none)
    (hnocomp : ∀ c ∈ s.completions, matchesTriple kidId choreId dateISO c = false) :
    ∃ (aw : Bool) (b : StreakBonus), b.id = fb ∧ b.kidId = kidId ∧ b.dateISO = dateISO ∧
      b.points = 5 ∧
      reducerToggle s fc fb kidId choreId dateISO = .ok
        { s with
          kids := if aw then
              (s.kids.map (fun k => if k.id == kidId then
                { k with points := k.points + ch.points } else k)).map
                (fun k => if k.id == kidId then { k with points := k.points + 5 } else k)
            else s.kids.map (fun k => if k.id == kidId then
              { k with points := k.points + ch.points } else k),
          completions := s.completions ++
            [{ id := fc, choreId := choreId, kidId := kidId, date := dateISO,
               completed := true }],
          chores := s.chores.map (updateChoreStreak s kidId choreId dateISO true),
          streakBonuses := if aw then b :: s.streakBonuses else s.streakBonuses } := by
  simp only [reducerToggle,
    toggleCompletions_not_found kidId choreId dateISO fc s.completions hnocomp, hfind,
    hnobonus, Option.isNone_none, Bool.and_true]
  rw [mapExcept_ok _ (fun k => if k.id == kidId then
      { k with points := k.points + ch.points } else k) s.kids
    (fun k hk => by by_cases hid : (k.id == kidId) = true <;> simp [updateKidPoints, hid])]
  set cs2 : List Completion := s.completions ++
    [{ id := fc, choreId := choreId, kidId := kidId, date := dateISO, completed := true }]
    with hcs2
  cases hful : isFullDayDone { s with completions := cs2 } kidId dateISO with
  | false => exact ⟨false, ⟨fb, kidId, dateISO, 0, 5⟩, rfl, rfl, rfl, rfl, rfl⟩
  | true =>
    cases hcond : (decide (0 < consecutiveFullDaysEndingOn { s with completions := cs2 }
        kidId dateISO) &&
        consecutiveFullDaysEndingOn { s with completions := cs2 } kidId dateISO % 10 == 0) with
    | true =>
      exact ⟨true, ⟨fb, kidId, dateISO,
        consecutiveFullDaysEndingOn { s with completions := cs2 } kidId dateISO, 5⟩,
        rfl, rfl, rfl, rfl, rfl⟩
    | false => exact ⟨false, ⟨fb, kidId, dateISO, 0, 5⟩, rfl, rfl, rfl, rfl, rfl⟩

/-- Toggling the same (kid, chore, date) off again, starting from the state
produced by the first (on) toggle: the fresh record is removed, the kid
points return to their original values (the chore subtraction and any bonus
revocation cancel the additions), the streak-bonus log returns to its
original value, and the chore's per-kid streak counter ends at 0. -/
theorem reducerToggle_off (s : State) (fc1 fc2 fb2 kidId choreId : String) (dateISO : Int)
    (ch : Chore) (aw : Bool) (b : StreakBonus)
    (hfind : s.chores.find? (fun c => c.id == choreId) = some ch)
    (hassigned : ch.assignedKidIds.contains kidId = true)
    (hdue : isChoreDueOn ch dateISO = true)
    (hchpts : 0 ≤ ch.points)
    (hkpts : ∀ k ∈ s.kids, 0 ≤ k.points)
    (hnocomp : ∀ c ∈ s.completions, matchesTriple kidId choreId dateISO c = false)
    (hnobonus : s.streakBonuses.find? (fun x => x.kidId == kidId && x.dateISO == dateISO) = none)
    (hforig : ∀ x ∈ s.streakBonuses, x.id ≠ b.id)
    (hb2 : b.kidId = kidId) (hb3 : b.dateISO = dateISO) (hb4 : b.points = 5) :
    reducerToggle
      { s with
        kids := if aw then
            (s.kids.map (fun k => if k.id == kidId then
              { k with points := k.points + ch.points } else k)).map
              (fun k => if k.id == kidId then { k with points := k.points + 5 } else k)
          else s.kids.map (fun k => if k.id == kidId then
            { k with points := k.points + ch.points } else k),
        completions := s.completions ++
          [{ id := fc1, choreId := choreId, kidId := kidId, date := dateISO,
             completed := true }],
        chores := s.chores.map (updateChoreStreak s kidId choreId dateISO true),
        streakBonuses := if aw then b :: s.streakBonuses else s.streakBonuses }
      fc2 fb2 kidId choreId dateISO =
    .ok { s with chores := s.chores.map (fun c =>
      if c.id == choreId then { c with streakByKid := setk c.streakByKid kidId 0 } else c) } := by
  have hfields := fun c => updateChoreStreak_fields s kidId choreId dateISO true c
  have hchid : ch.id = choreId := by simpa using List.find?_some hfind
  have hfind2 : (s.chores.map (updateChoreStreak s kidId choreId dateISO true)).find?
      (fun c => c.id == choreId) = some (updateChoreStreak s kidId choreId dateISO true ch) := by
    rw [find?_map_pres _ _ (fun c => by rw [(hfields c).1]) s.chores, hfind]
    rfl
  have hupts : (updateChoreStreak s kidId choreId dateISO true ch).points = ch.points := by
    simp only [updateChoreStreak]
    split <;> rfl
  have hchores : ∀ t : State,
      (s.chores.map (updateChoreStreak s kidId choreId dateISO true)).map
        (updateChoreStreak t kidId choreId dateISO false) =
      s.chores.map (fun c => if c.id == choreId then
        { c with streakByKid := setk c.streakByKid kidId 0 } else c) := by
    intro t
    rw [List.map_map]
    apply List.map_congr_left
    intro c hc
    simp only [Function.comp, updateChoreStreak]
    by_cases hcid : (c.id == choreId) = true
    · simp only [hcid, if_true, Bool.false_eq_true, if_false, setk_setk]
    · simp only [hcid, Bool.false_eq_true, if_false]
  have hful2 : ∀ t : State,
      t.chores = s.chores.map (updateChoreStreak s kidId choreId dateISO true) →
      t.completions = s.completions →
      isFullDayDone t kidId dateISO = false := by
    intro t hch2 hco2
    rw [isFullDayDone_map_chores s t kidId dateISO _ hfields hch2 hco2]
    apply not_full_of_missing s kidId dateISO ch (List.mem_of_find?_eq_some hfind) hassigned hdue
    intro c hc
    rw [hchid]
    exact hnocomp c hc
  cases aw with
  | false =>
    show reducerToggle { s with
        kids := s.kids.map (fun k => if k.id == kidId then
          { k with points := k.points + ch.points } else k),
        completions := s.completions ++
          [{ id := fc1, choreId := choreId, kidId := kidId, date := dateISO,
             completed := true }],
        chores := s.chores.map (updateChoreStreak s kidId choreId dateISO true),
        streakBonuses := s.streakBonuses } fc2 fb2 kidId choreId dateISO = _
    simp only [reducerToggle]
    rw [toggleCompletions_found_append kidId choreId dateISO fc1 fc2 s.completions hnocomp]
    rw [hfind2]
    rw [mapExcept_ok _ (fun k => if k.id == kidId then
        { k with points := max 0 (k.points -
          (updateChoreStreak s kidId choreId dateISO true ch).points) } else k) _
      (fun k hk => by by_cases hid : (k.id == kidId) = true <;> simp [updateKidPoints, hid])]
    dsimp only
    rw [hful2 { s with
        kids := s.kids.map (fun k => if k.id == kidId then
          { k with points := k.points + ch.points } else k),
        chores := s.chores.map (updateChoreStreak s kidId choreId dateISO true),
        streakBonuses := s.streakBonuses } rfl rfl]
    rw [hnobonus]
    rw [hchores]
    rw [hupts]
    rw [kids_round_trip_noaward kidId ch.points hchpts s.kids hkpts]
    rfl
  | true =>
    show reducerToggle { s with
        kids := (s.kids.map (fun k => if k.id == kidId then
          { k with points := k.points + ch.points } else k)).map
          (fun k => if k.id == kidId then { k with points := k.points + 5 } else k),
        completions := s.completions ++
          [{ id := fc1, choreId := choreId, kidId := kidId, date := dateISO,
             completed := true }],
        chores := s.chores.map (updateChoreStreak s kidId choreId dateISO true),
        streakBonuses := b :: s.streakBonuses } fc2 fb2 kidId choreId dateISO = _
    simp only [reducerToggle]
    rw [toggleCompletions_found_append kidId choreId dateISO fc1 fc2 s.completions hnocomp]
    rw [hfind2]
    rw [mapExcept_ok _ (fun k => if k.id == kidId then
        { k with points := max 0 (k.points -
          (updateChoreStreak s kidId choreId dateISO true ch).points) } else k) _
      (fun k hk => by by_cases hid : (k.id == kidId) = true <;> simp [updateKidPoints, hid])]
    dsimp only
    rw [hful2 { s with
        kids := (s.kids.map (fun k => if k.id == kidId then
          { k with points := k.points + ch.points } else k)).map
          (fun k => if k.id == kidId then { k with points := k.points + 5 } else k),
        chores := s.chores.map (updateChoreStreak s kidId choreId dateISO true),
        streakBonuses := b :: s.streakBonuses } rfl rfl]
    rw [List.find?_cons_of_pos s.streakBonuses (show (b.kidId == kidId && b.dateISO == dateISO) = true
      by rw [hb2, hb3]; simp)]
    simp only [Bool.false_eq_true, if_false]
    rw [hchores]
    rw [hupts]
    rw [hb4]
    rw [kids_round_trip_award kidId ch.points hchpts s.kids hkpts]
    have hfilter : (b :: s.streakBonuses).filter (fun x => x.id != b.id) = s.streakBonuses := by
      rw [List.filter_cons]
      rw [bne_self_eq_false]
      simp only [Bool.false_eq_true, if_false]
      exact List.filter_eq_self.mpr (fun x hx => bne_iff_ne.mpr (hforig x hx))
    rw [hfilter]

/-- C1 amended: starting from a state with no completion record and no
streak bonus for the toggled (kid, chore, date), where the chore exists with
non-negative points, is assigned to the kid and due on the date, all kid
balances are non-negative, and the first toggle's fresh bonus id does not
collide with a stored bonus id: toggling the same (kidId, choreId, dateISO)
twice in succession restores the kids (hence every balance, any bonus
granted and revoked netting to zero), the completions, and the streak-bonus
log exactly — but the chore's per-kid streak counter ends at 0 after the
second toggle instead of returning to its pre-toggle value. -/
theorem toggle_twice_round_trip (s : State) (fc1 fb1 fc2 fb2 kidId choreId : String)
    (dateISO : Int) (ch : Chore)
    (hfind : s.chores.find? (fun c => c.id == choreId) = some ch)
    (hassigned : ch.assignedKidIds.contains kidId = true)
    (hdue : isChoreDueOn ch dateISO = true)
    (hchpts : 0 ≤ ch.points)
    (hkpts : ∀ k ∈ s.kids, 0 ≤ k.points)
    (hnocomp : ∀ c ∈ s.completions, matchesTriple kidId choreId dateISO c = false)
    (hnobonus : s.streakBonuses.find? (fun x => x.kidId == kidId && x.dateISO == dateISO) = none)
    (hfresh : ∀ x ∈ s.streakBonuses, x.id ≠ fb1) :
    (reducer s (.toggleComplete fc1 fb1 kidId choreId dateISO)).bind
        (fun s1 => reducer s1 (.toggleComplete fc2 fb2 kidId choreId dateISO)) =
      .ok { s with chores := s.chores.map (fun c =>
        if c.id == choreId then { c with streakByKid := setk c.streakByKid kidId 0 } else c) } := by
  obtain ⟨aw, b, hb1, hb2, hb3, hb4, hstep1⟩ :=
    reducerToggle_on s fc1 fb1 kidId choreId dateISO ch hfind hnobonus hnocomp
  show (reducerToggle s fc1 fb1 kidId choreId dateISO).bind _ = _
  rw [hstep1]
  exact reducerToggle_off s fc1 fc2 fb2 kidId choreId dateISO ch aw b hfind hassigned hdue
    hchpts hkpts hnocomp hnobonus (fun x hx => by rw [hb1]; exact hfresh x hx) hb2 hb3 hb4

theorem toggle_twice_round_trip_witness :
    (reducer rtState (.toggleComplete "c2" "b2" "K" "C" 2)).bind
        (fun s1 => reducer s1 (.toggleComplete "c3" "b3" "K" "C" 2)) =
      .ok { rtState with chores := rtState.chores.map (fun c =>
        if c.id == "C" then { c with streakByKid := setk c.streakByKid "K" 0 } else c) } :=
  toggle_twice_round_trip rtState "c2" "b2" "c3" "b3" "K" "C" 2
    { scenarioChore with streakByKid := [("K", 1)] }
    (by decide) (by decide) (by decide) (by decide) (by decide) (by decide) (by decide)
    (fun x hx => absurd hx (List.not_mem_nil x))

end Loop
